import Mathlib

/-
A shallow embedding of the beditor text-buffer engine
(src/buffer.rs, src/editor.rs, src/terminal.rs).

Modelling conventions:
- Rust String (a line of text) becomes List Char; Vec becomes List;
  u16 / u32 / usize quantities become Nat.
- Operations that can panic in Rust (str::split_at out of bounds,
  Option::unwrap on None) return Option, with none marking the panic.
  Slice/vector splits whose bounds are established by the enclosing
  if-guard are written directly with List.take / List.drop.
- History.is_in_past uses truncated Nat subtraction for
  states.len() - 1; the two differ only when states is empty, a case
  the program never reaches (states holds at least one snapshot at
  every public-operation boundary).
-/

namespace Beditor

/-- Cursor / edit coordinate: column x, row y (src/terminal.rs, Position). -/
structure Position where
  x : Nat
  y : Nat
deriving DecidableEq, Repr

/-- Position::new. -/
def Position.new (x y : Nat) : Position := ⟨x, y⟩

/-- Position::up - move up one row, stopping at row 0 (src/terminal.rs). -/
def Position.up (p : Position) : Position :=
  if 0 < p.y then { p with y := p.y - 1 } else p

/-- Position::down - move down one row unless y equals terminal height - 2
(src/terminal.rs; the terminal height is passed explicitly here). -/
def Position.down (p : Position) (termHeight : Nat) : Position :=
  if p.y ≠ termHeight - 2 then { p with y := p.y + 1 } else p

/-- Result of Buffer::backspace (src/buffer.rs, enum Backspace). -/
inductive Backspace where
  | WrapLines : Position → Backspace
  | SameLine : Backspace
deriving DecidableEq, Repr

/-- Undo/redo history (src/buffer.rs, struct History). -/
structure History where
  states : List (List (List Char))
  cursors : List Position
  index : Nat
deriving DecidableEq, Repr

/-- History::update - push a snapshot/cursor pair and advance the index. -/
def History.update (h : History) (new : List (List Char)) (cursor : Position) : History :=
  { h with
    states := h.states ++ [new]
    cursors := h.cursors ++ [cursor]
    index := h.index + 1 }

/-- History::decapitate - truncate states and cursors to the first
index elements (Vec::truncate keeps exactly that many). -/
def History.decapitate (h : History) : History :=
  { h with
    states := h.states.take h.index
    cursors := h.cursors.take h.index }

/-- History::is_in_past - states.len() - 1 > index. -/
def History.is_in_past (h : History) : Bool :=
  decide (h.states.length - 1 > h.index)

/-- History::rollback - index -= 1 (guarded by index > 0 at the call site). -/
def History.rollback (h : History) : History :=
  { h with index := h.index - 1 }

/-- History::rollforward - index += 1. -/
def History.rollforward (h : History) : History :=
  { h with index := h.index + 1 }

/-- The text buffer (src/buffer.rs, struct Buffer). -/
structure Buffer where
  lines : List (List Char)
  history : History
  file : String
deriving DecidableEq, Repr

/-- Buffer::new - initial history holds one snapshot of the initial
lines paired with cursor (0, 0). -/
def Buffer.new (lines : List (List Char)) (file : String) : Buffer :=
  { lines := lines
    file := file
    history :=
      { states := [lines]
        cursors := [Position.new 0 0]
        index := 0 } }

/-- Buffer::len. -/
def Buffer.len (b : Buffer) : Nat := b.lines.length

/-- Buffer::nth_line_len - length of row n, or 0 if it does not exist. -/
def Buffer.nth_line_len (b : Buffer) (n : Nat) : Nat :=
  (b.lines.getD n []).length

/-- str::split_at - panics (none) when mid exceeds the length. -/
def splitAtChecked (s : List Char) (mid : Nat) : Option (List Char × List Char) :=
  if mid ≤ s.length then some (s.take mid, s.drop mid) else none

/-- str::strip_suffix with the match-any-char pattern: removes the final
character, or fails (unwrap panic, none) on an empty string. -/
def stripLastChar (s : List Char) : Option (List Char) :=
  if s.isEmpty then none else some s.dropLast

/-- Buffer::write - splice char into row pos.y at column pos.x, or grow
the document when pos.y is past the last row. -/
def Buffer.write (b : Buffer) (pos : Position) (c : Char) : Option Buffer :=
  if pos.y < b.lines.length then
    (splitAtChecked (b.lines.getD pos.y []) pos.x).map (fun sp =>
      let lines' := b.lines.take pos.y ++ [sp.1 ++ [c] ++ sp.2] ++ (b.lines.drop pos.y).drop 1
      { b with lines := lines' })
  else
    some { b with lines := b.lines ++ List.replicate (pos.y - b.lines.length) [] ++ [[c]] }

/-- Buffer::backspace - delete the character before pos, joining or
deleting rows at a line start (src/buffer.rs lines 67-119). -/
def Buffer.backspace (b : Buffer) (pos : Position) : Option (Buffer × Backspace) :=
  if pos.y < b.lines.length ∧ 0 < pos.x then
    (splitAtChecked (b.lines.getD pos.y []) pos.x).bind (fun sp =>
      (stripLastChar sp.1).map (fun stripped =>
        let lines' := b.lines.take pos.y ++ [stripped ++ sp.2] ++ (b.lines.drop pos.y).drop 1
        ({ b with lines := lines' }, Backspace.SameLine)))
  else if pos.x ≤ 1 ∧ pos.y < b.lines.length then
    if b.nth_line_len pos.y = 0 ∧ 0 < pos.y then
      let b' : Buffer := { b with lines := b.lines.take pos.y ++ (b.lines.drop pos.y).drop 1 }
      some (b', Backspace.WrapLines (Position.new (b'.nth_line_len (pos.y - 1)) (pos.y - 1)))
    else if 0 < pos.y then
      let wrapped_line_len := b.nth_line_len pos.y
      let sp0 := b.lines.take pos.y
      let sp1 := b.lines.drop pos.y
      let lines' := sp0.take (sp0.length - 1) ++ [sp0.getLastD [] ++ sp1.headD []] ++ sp1.drop 1
      let b' : Buffer := { b with lines := lines' }
      some (b', Backspace.WrapLines
        (Position.new (b'.nth_line_len (pos.y - 1) - wrapped_line_len) (pos.y - 1)))
    else
      some (b, Backspace.SameLine)
  else
    some (b, Backspace.SameLine)

/-- Buffer::new_line - insert an empty row at pos.y, or pad with empty
rows through pos.y when it is past the last row. -/
def Buffer.new_line (b : Buffer) (pos : Position) : Buffer :=
  if pos.y < b.lines.length then
    { b with lines := b.lines.take pos.y ++ [[]] ++ b.lines.drop pos.y }
  else
    { b with lines := b.lines ++ List.replicate (pos.y - b.lines.length + 1) [] }

/-- Buffer::enter - split row pos.y at column pos.x; delegate to
new_line past the last row; no-op when pos.x is not strictly inside
the row. -/
def Buffer.enter (b : Buffer) (pos : Position) : Buffer :=
  if b.lines.length ≤ pos.y then
    b.new_line pos
  else if pos.x < (b.lines.getD pos.y []).length then
    let row := b.lines.getD pos.y []
    let lines' := b.lines.take pos.y ++ [row.take pos.x] ++ [row.drop pos.x] ++ (b.lines.drop pos.y).drop 1
    { b with lines := lines' }
  else
    b

/-- Buffer::update_history - decapitate when in the past, then record
the current lines with the given cursor. -/
def Buffer.update_history (b : Buffer) (cursor : Position) : Buffer :=
  let h := if b.history.is_in_past then b.history.decapitate else b.history
  { b with history := h.update b.lines cursor }

/-- Buffer::undo - roll the index back and install that snapshot;
none models the unwrap panic on an out-of-range index. -/
def Buffer.undo (b : Buffer) : Option (Buffer × Option Position) :=
  if 0 < b.history.index then
    let h := b.history.rollback
    match h.states[h.index]?, h.cursors[h.index]? with
    | some s, some c => some ({ b with lines := s, history := h }, some c)
    | _, _ => none
  else
    some (b, none)

/-- Buffer::redo - roll the index forward and install that snapshot. -/
def Buffer.redo (b : Buffer) : Option (Buffer × Option Position) :=
  if b.history.is_in_past then
    let h := b.history.rollforward
    match h.states[h.index]?, h.cursors[h.index]? with
    | some s, some c => some ({ b with lines := s, history := h }, some c)
    | _, _ => none
  else
    some (b, none)

/-- A sequence of record calls as the editor issues them: each entry
installs the buffer's then-current lines and calls update_history with
the cursor to record (editor.rs Esc handler). -/
def recordAll (b : Buffer) (recs : List (List (List Char) × Position)) : Buffer :=
  recs.foldl (fun acc r => ({ acc with lines := r.1 } : Buffer).update_history r.2) b

/-- Run write, keeping the buffer unchanged on the (unreached) panic case. -/
def writeD (b : Buffer) (pos : Position) (c : Char) : Buffer :=
  (b.write pos c).getD b

/-- Run undo, keeping the resulting buffer. -/
def undoD (b : Buffer) : Buffer :=
  ((b.undo).getD (b, none)).1

/-- Concrete trace: new buffer with one line "a", record once, undo,
edit the line to "ba", record again while in the past. -/
def pastRecordTrace : Buffer :=
  (writeD (undoD ((Buffer.new [['a']] "f").update_history (Position.new 1 0)))
      (Position.new 0 0) 'b').update_history (Position.new 1 0)

/-- Cursor with sticky-column memory (src/editor.rs, struct Cursor). -/
structure Cursor where
  position : Position
  previous_x : Nat
deriving DecidableEq, Repr

/-- The editor state relevant to cursor motion: the view is collapsed
to its buffer's lines, since vertical moves read only line lengths
(src/editor.rs, struct Editor; mode, quit and screen size omitted). -/
structure Editor where
  lines : List (List Char)
  cursor : Cursor
deriving DecidableEq, Repr

/-- Editor::current_line_len - length of the row under the cursor. -/
def Editor.current_line_len (e : Editor) : Nat :=
  (e.lines.getD e.cursor.position.y []).length

/-- Editor::correct_cursor - clamp the column to the current row's length. -/
def Editor.correct_cursor (e : Editor) : Editor :=
  { e with cursor :=
      { e.cursor with position := { e.cursor.position with x := e.current_line_len } } }

/-- Editor::recall_cursor - re-apply the remembered column, then clamp
when the row is shorter than the remembered column. -/
def Editor.recall_cursor (e : Editor) : Editor :=
  let current_len := e.current_line_len
  let e1 :=
    if e.cursor.position.x < e.cursor.previous_x then
      { e with cursor :=
          { e.cursor with position := { e.cursor.position with x := e.cursor.previous_x } } }
    else e
  if current_len < e1.cursor.previous_x then e1.correct_cursor else e1

/-- Editor::up - move the position up, clamp on overflow, then recall. -/
def Editor.up (e : Editor) : Editor :=
  let e1 : Editor := { e with cursor := { e.cursor with position := e.cursor.position.up } }
  let e2 := if e1.cursor.position.x > e1.current_line_len then e1.correct_cursor else e1
  e2.recall_cursor

/-- Editor::down - move the position down, clamp on overflow, then recall. -/
def Editor.down (e : Editor) (termHeight : Nat) : Editor :=
  let e1 : Editor :=
    { e with cursor := { e.cursor with position := e.cursor.position.down termHeight } }
  let e2 := if e1.cursor.position.x > e1.current_line_len then e1.correct_cursor else e1
  e2.recall_cursor

/-- Buffers reachable from construction through the public operations;
steps through fallible operations exist only when the operation
returns a value (a panicking run has no successor state). -/
inductive Reachable : Buffer → Prop where
  | new : ∀ (lines : List (List Char)) (file : String),
      lines ≠ [] → Reachable (Buffer.new lines file)
  | write : ∀ (b : Buffer) (pos : Position) (c : Char) (b' : Buffer),
      Reachable b → b.write pos c = some b' → Reachable b'
  | backspace : ∀ (b : Buffer) (pos : Position) (b' : Buffer) (r : Backspace),
      Reachable b → b.backspace pos = some (b', r) → Reachable b'
  | enter : ∀ (b : Buffer) (pos : Position), Reachable b → Reachable (b.enter pos)
  | new_line : ∀ (b : Buffer) (pos : Position), Reachable b → Reachable (b.new_line pos)
  | update_history : ∀ (b : Buffer) (cur : Position),
      Reachable b → Reachable (b.update_history cur)
  | undo : ∀ (b b' : Buffer) (r : Option Position),
      Reachable b → b.undo = some (b', r) → Reachable b'
  | redo : ∀ (b b' : Buffer) (r : Option Position),
      Reachable b → b.redo = some (b', r) → Reachable b'

theorem headD_drop (l : List α) (n : Nat) (d : α) (h : n < l.length) :
    (l.drop n).headD d = l.getD n d := by
  rw [List.drop_eq_getElem_cons h]
  simp [List.getD_eq_getElem?_getD, List.getElem?_eq_getElem h]

theorem getLastD_take (l : List α) (n : Nat) (d : α) (h0 : 0 < n) (h : n ≤ l.length) :
    (l.take n).getLastD d = l.getD (n - 1) d := by
  rw [List.getLastD_eq_getLast?, List.getLast?_eq_getElem?]
  have hlen : (l.take n).length = n := by simp [List.length_take]; omega
  rw [hlen, List.getElem?_take_of_lt (by omega : n - 1 < n)]
  simp [List.getD_eq_getElem?_getD]

/-- Claim C10: backspace at a row index not below the line count leaves the
buffer completely unchanged and returns SameLine, for every column (no
padding, merging or deletion of out-of-range rows). -/
theorem backspace_out_of_range_noop (b : Buffer) (pos : Position)
    (h : b.lines.length ≤ pos.y) :
    b.backspace pos = some (b, Backspace.SameLine) := by
  have h1 : ¬ (pos.y < b.lines.length ∧ 0 < pos.x) := by omega
  have h2 : ¬ (pos.x ≤ 1 ∧ pos.y < b.lines.length) := by omega
  simp [Buffer.backspace, h1, h2]

/-- Claim C10 witness: backspace at (0,5) on the one-line buffer is a no-op. -/
theorem backspace_out_of_range_noop_witness :
    (Buffer.new [['a']] "f").backspace (Position.new 0 5) =
      some (Buffer.new [['a']] "f", Backspace.SameLine) :=
  backspace_out_of_range_noop (Buffer.new [['a']] "f") (Position.new 0 5) (by decide)

/-- Claim C6: writing a character at a row index not below the line count
appends exactly (pos.y - rowCount) empty rows followed by one row holding
exactly that character, regardless of pos.x, keeps all pre-existing rows,
raises no error, and the buffer length becomes pos.y + 1. -/
theorem write_append_growth (b : Buffer) (pos : Position) (c : Char)
    (h : b.lines.length ≤ pos.y) :
    b.write pos c =
      some { b with lines := b.lines ++ List.replicate (pos.y - b.lines.length) [] ++ [[c]] } ∧
    (b.lines ++ List.replicate (pos.y - b.lines.length) [] ++ [[c]]).length = pos.y + 1 := by
  constructor
  · simp [Buffer.write, Nat.not_lt.2 h]
  · simp
    omega

/-- Claim C6 witness: writing at (7,3) on a one-line buffer pads two empty
rows and appends the character row. -/
theorem write_append_growth_witness :
    (Buffer.new [['a']] "f").write (Position.new 7 3) 'z' =
      some { Buffer.new [['a']] "f" with lines := (Buffer.new [['a']] "f").lines ++ List.replicate ((Position.new 7 3).y - (Buffer.new [['a']] "f").lines.length) [] ++ [['z']] } ∧
    ((Buffer.new [['a']] "f").lines ++ List.replicate ((Position.new 7 3).y - (Buffer.new [['a']] "f").lines.length) [] ++ [['z']]).length = (Position.new 7 3).y + 1 :=
  write_append_growth (Buffer.new [['a']] "f") (Position.new 7 3) 'z' (by decide)

/-- Claim C4 (amended: column 0 only): backspacing at column 0 of a
non-empty, non-first existing row replaces the two rows by a single merged
row equal to previous row content followed by current row content, and
returns WrapLines with x equal to the previous row's pre-merge length and
y equal to pos.y - 1. -/
theorem backspace_join_at_column_zero (b : Buffer) (pos : Position)
    (hx : pos.x = 0) (hy0 : 0 < pos.y) (hy : pos.y < b.lines.length)
    (hne : b.lines.getD pos.y [] ≠ []) :
    b.backspace pos =
      some ({ b with lines := b.lines.take (pos.y - 1) ++ [b.lines.getD (pos.y - 1) [] ++ b.lines.getD pos.y []] ++ b.lines.drop (pos.y + 1) },
        Backspace.WrapLines (Position.new (b.lines.getD (pos.y - 1) []).length (pos.y - 1))) := by
  have h1 : ¬ (pos.y < b.lines.length ∧ 0 < pos.x) := by omega
  have h2 : pos.x ≤ 1 ∧ pos.y < b.lines.length := by omega
  have hlen : b.nth_line_len pos.y ≠ 0 := by
    simpa [Buffer.nth_line_len, List.length_eq_zero] using hne
  have h3 : ¬ (b.nth_line_len pos.y = 0 ∧ 0 < pos.y) := fun hc => hlen hc.1
  have e0 : (b.lines.take pos.y).length = pos.y := by
    rw [List.length_take]; omega
  have e1 : (b.lines.take pos.y).take (pos.y - 1) = b.lines.take (pos.y - 1) := by
    rw [List.take_take]; congr 1; omega
  have e2 : (b.lines.take pos.y).getLastD [] = b.lines.getD (pos.y - 1) [] :=
    getLastD_take _ _ _ hy0 (Nat.le_of_lt hy)
  have e3 : (b.lines.drop pos.y).headD [] = b.lines.getD pos.y [] :=
    headD_drop _ _ _ hy
  have e4 : (b.lines.drop pos.y).drop 1 = b.lines.drop (pos.y + 1) := by
    rw [List.drop_drop]
  have e5 : ((b.lines.take (pos.y - 1) ++ [b.lines.getD (pos.y - 1) [] ++ b.lines.getD pos.y []] ++ b.lines.drop (pos.y + 1)).getD (pos.y - 1) []) = b.lines.getD (pos.y - 1) [] ++ b.lines.getD pos.y [] := by
    have hA : (b.lines.take (pos.y - 1)).length = pos.y - 1 := by
      rw [List.length_take]; omega
    rw [List.getD_eq_getElem?_getD, List.getElem?_append_left (by simp [hA]),
      List.getElem?_append_right (by omega : (b.lines.take (pos.y - 1)).length ≤ pos.y - 1)]
    simp [hA]
  simp only [Buffer.backspace, if_neg h1, if_pos h2, if_neg h3, if_pos hy0]
  rw [e0, e1, e2, e3, e4]
  simp only [Buffer.nth_line_len, e5, Option.some.injEq, Prod.mk.injEq]
  constructor
  · trivial
  · simp [Position.new]

/-- Claim C4 witness: joining ["cd"] onto ["ab"] at (0,1) yields ["abcd"]
and cursor (2,0). -/
theorem backspace_join_at_column_zero_witness :
    (Buffer.new [['a','b'],['c','d']] "f").backspace (Position.new 0 1) =
      some ({ Buffer.new [['a','b'],['c','d']] "f" with lines := [['a','b','c','d']] },
        Backspace.WrapLines (Position.new 2 0)) := by
  have := backspace_join_at_column_zero (Buffer.new [['a','b'],['c','d']] "f")
    (Position.new 0 1) rfl (by decide) (by decide) (by decide)
  simpa using this

/-- Claim C4 counterexample: at column 1 of a non-empty, non-first row the
first backspace branch fires, deleting one character inside the row and
returning SameLine; no row join takes place, contradicting the claim for
column 1. -/
theorem backspace_at_column_one_is_char_delete :
    (Buffer.new [['a','b'],['c','d']] "f").backspace (Position.new 1 1) =
      some ({ Buffer.new [['a','b'],['c','d']] "f" with lines := [['a','b'],['d']] },
        Backspace.SameLine) ∧
    (Buffer.new [['a','b'],['c','d']] "f").backspace (Position.new 1 1) ≠
      some ({ Buffer.new [['a','b'],['c','d']] "f" with lines := [['a','b','c','d']] },
        Backspace.WrapLines (Position.new 2 0)) := by
  decide

/-- Claim C5 (amended: pos.x = 0 only): backspacing at column 0 of an
empty, non-first existing row removes exactly that row, shifting later
rows up, and returns WrapLines with the cursor at the end of the
now-current previous row. -/
theorem backspace_empty_row_deletion (b : Buffer) (pos : Position)
    (hx : pos.x = 0) (hy0 : 0 < pos.y) (hy : pos.y < b.lines.length)
    (hemp : b.lines.getD pos.y [] = []) :
    b.backspace pos =
      some ({ b with lines := b.lines.take pos.y ++ b.lines.drop (pos.y + 1) },
        Backspace.WrapLines (Position.new (b.lines.getD (pos.y - 1) []).length (pos.y - 1))) := by
  have h1 : ¬ (pos.y < b.lines.length ∧ 0 < pos.x) := by omega
  have h2 : pos.x ≤ 1 ∧ pos.y < b.lines.length := by omega
  have h3 : b.nth_line_len pos.y = 0 ∧ 0 < pos.y :=
    ⟨by simp only [Buffer.nth_line_len, hemp]; rfl, hy0⟩
  have e4 : (b.lines.drop pos.y).drop 1 = b.lines.drop (pos.y + 1) := by
    rw [List.drop_drop]
  have e5 : ((b.lines.take pos.y ++ b.lines.drop (pos.y + 1)).getD (pos.y - 1) []) = b.lines.getD (pos.y - 1) [] := by
    have hA : (b.lines.take pos.y).length = pos.y := by
      rw [List.length_take]; omega
    rw [List.getD_eq_getElem?_getD, List.getElem?_append_left (by omega),
      List.getElem?_take_of_lt (by omega : pos.y - 1 < pos.y)]
    rw [List.getD_eq_getElem?_getD]
  simp only [Buffer.backspace, if_neg h1, if_pos h2, if_pos h3]
  rw [e4]
  simp only [Buffer.nth_line_len, e5]

/-- Claim C5 witness: the concrete instance from the claim, buffer
["ab", ""] with backspace at (0,1), yields ["ab"] and position (2,0). -/
theorem backspace_empty_row_deletion_witness :
    (Buffer.new [['a','b'],[]] "f").backspace (Position.new 0 1) =
      some ({ Buffer.new [['a','b'],[]] "f" with lines := [['a','b']] },
        Backspace.WrapLines (Position.new 2 0)) := by
  have := backspace_empty_row_deletion (Buffer.new [['a','b'],[]] "f")
    (Position.new 0 1) rfl (by decide) (by decide) (by decide)
  simpa using this

/-- Claim C5 counterexample: at pos.x = 1 on the empty row the first
branch fires and str::split_at(1) on the empty string panics (modelled as
none); the row is not deleted, contradicting the claim for pos.x = 1. -/
theorem backspace_empty_row_at_column_one_is_panic :
    (Buffer.new [['a','b'],[]] "f").backspace (Position.new 1 1) = none ∧
    (Buffer.new [['a','b'],[]] "f").backspace (Position.new 1 1) ≠
      some ({ Buffer.new [['a','b'],[]] "f" with lines := [['a','b']] },
        Backspace.WrapLines (Position.new 2 0)) := by
  decide

/-- Claim C1: the claimed invariant fails on the code. On the trace
record, undo, edit, record, decapitate truncates states to the first
index entries, so after the final record index equals states.length
(violating index < states.length) and states[0] is no longer the
construction-time content. -/
theorem history_invariant_broken_by_past_record :
    ¬ (pastRecordTrace.history.index < pastRecordTrace.history.states.length) ∧
    pastRecordTrace.history.states.getD 0 [] ≠ [['a']] := by
  decide

/-- Claim C2: recording while in the past is claimed to keep entries
0..=index, but Vec::truncate(index) drops the entry at index itself: on
the trace the whole old history is discarded and only the new snapshot
remains, with index past the tail; the subsequent redo returns nothing. -/
theorem decapitate_drops_entry_at_index :
    pastRecordTrace.history.states = [[['b','a']]] ∧
    pastRecordTrace.history.states ≠ [[['a']], [['b','a']]] ∧
    pastRecordTrace.redo = some (pastRecordTrace, none) := by
  decide

/-- Claim C9 counterexample: with previous_x = 3, column 1, and a
destination row of length 2 (shorter than previous_x), the recall step
changes the clamped column from 1 to 2, contradicting the claim that the
clamped column is not changed when the row is shorter than previousX. -/
theorem recall_changes_clamped_column :
    (let e0 : Editor := { lines := [['a','b'],['x']], cursor := { position := Position.new 1 1, previous_x := 3 } }
     ((e0.lines.getD 0 []).length < e0.cursor.previous_x) ∧
     e0.cursor.position.x ≤ (e0.lines.getD 0 []).length ∧
     (e0.up).cursor.position.y = 0 ∧
     (e0.up).cursor.position.x = 2 ∧
     (e0.up).cursor.position.x ≠ e0.cursor.position.x) := by
  decide

theorem Position.up_x (p : Position) : (p.up).x = p.x := by
  unfold Position.up; split_ifs <;> rfl

theorem Position.down_x (p : Position) (termHeight : Nat) : (p.down termHeight).x = p.x := by
  unfold Position.down; split_ifs <;> rfl

/-- Claim C9 (amended): a vertical move first changes position.y, then
clamps position.x to the destination row's length, and afterwards the
recall step sets x to previousX exactly when the clamped column is less
than previousX and the row is long enough, and to the destination row's
length when the clamped column is less than previousX but the row is
shorter than previousX; a clamped column at or above previousX is kept. -/
theorem sticky_column_vertical_move (e : Editor) (termHeight : Nat) :
    (let py := (e.cursor.position.up).y
     let len := (e.lines.getD py []).length
     let clamped := if len < e.cursor.position.x then len else e.cursor.position.x
     (e.up).cursor.position.y = py ∧
     (e.up).cursor.position.x =
       (if clamped < e.cursor.previous_x then
          (if len < e.cursor.previous_x then len else e.cursor.previous_x)
        else clamped)) ∧
    (let py := (e.cursor.position.down termHeight).y
     let len := (e.lines.getD py []).length
     let clamped := if len < e.cursor.position.x then len else e.cursor.position.x
     (e.down termHeight).cursor.position.y = py ∧
     (e.down termHeight).cursor.position.x =
       (if clamped < e.cursor.previous_x then
          (if len < e.cursor.previous_x then len else e.cursor.previous_x)
        else clamped)) := by
  constructor
  · simp only [Editor.up, Editor.recall_cursor, Editor.correct_cursor, Editor.current_line_len,
      Position.up_x]
    split_ifs <;> (simp_all [Position.up_x]; try omega)
  · simp only [Editor.down, Editor.recall_cursor, Editor.correct_cursor, Editor.current_line_len,
      Position.down_x]
    split_ifs <;> (simp_all [Position.down_x]; try omega)

/-- Claim C7: enter splits row pos.y at pos.x into two rows when pos.x is
strictly inside an existing row, behaves as new_line when pos.y is beyond
the last row (the length becomes pos.y + 1), and leaves the buffer
unchanged when pos.x is at or past the end of an existing row. -/
theorem enter_cases (b : Buffer) (pos : Position) :
    (b.enter pos =
      if b.lines.length ≤ pos.y then b.new_line pos
      else if pos.x < (b.lines.getD pos.y []).length then
        { b with lines := b.lines.take pos.y ++ [(b.lines.getD pos.y []).take pos.x] ++ [(b.lines.getD pos.y []).drop pos.x] ++ b.lines.drop (pos.y + 1) }
      else b) ∧
    (b.lines.length ≤ pos.y → (b.enter pos).lines.length = pos.y + 1) := by
  constructor
  · simp only [Buffer.enter]
    split_ifs with hy hx
    · rfl
    · rw [List.drop_drop]
    · rfl
  · intro h
    simp only [Buffer.enter, if_pos h, Buffer.new_line, if_neg (Nat.not_lt.2 h)]
    simp only [List.length_append, List.length_replicate]
    omega

/-- Claim C7 witness: enter at (0,3) on a one-line buffer grows the
buffer to four rows. -/
theorem enter_cases_witness :
    ((Buffer.new [['a']] "f").enter (Position.new 0 3)).lines.length = (Position.new 0 3).y + 1 :=
  (enter_cases (Buffer.new [['a']] "f") (Position.new 0 3)).2 (by decide)


theorem cons_getElem?_length (a : α) (l : List α) :
    (a :: l)[l.length]? = some (l.getLastD a) := by
  induction l generalizing a with
  | nil => rfl
  | cons x xs ih =>
    simp only [List.length_cons, List.getElem?_cons_succ, ih, List.getLastD_cons]

theorem update_history_at_tail (b : Buffer) (c : Position)
    (hT : b.history.index + 1 = b.history.states.length) :
    b.update_history c = { b with history := { states := b.history.states ++ [b.lines], cursors := b.history.cursors ++ [c], index := b.history.index + 1 } } := by
  have hpast : b.history.is_in_past = false := by
    simp only [History.is_in_past, decide_eq_false_iff_not, Nat.not_lt]
    omega
  simp [Buffer.update_history, hpast, History.update]

theorem recordAll_tail (recs : List ((List (List Char)) × Position)) :
    ∀ b : Buffer, b.history.index + 1 = b.history.states.length →
      (recordAll b recs).history.states = b.history.states ++ recs.map Prod.fst ∧
      (recordAll b recs).history.cursors = b.history.cursors ++ recs.map Prod.snd ∧
      (recordAll b recs).history.index = b.history.index + recs.length ∧
      (recordAll b recs).lines = (recs.map Prod.fst).getLastD b.lines := by
  induction recs with
  | nil =>
    intro b hT
    simp [recordAll]
  | cons r rs ih =>
    intro b hT
    have hstep : (({ b with lines := r.1 } : Buffer).update_history r.2) = ({ b with lines := r.1, history := { states := b.history.states ++ [r.1], cursors := b.history.cursors ++ [r.2], index := b.history.index + 1 } } : Buffer) := by
      have h2 := update_history_at_tail ({ b with lines := r.1 } : Buffer) r.2 hT
      simpa using h2
    obtain ⟨i1, i2, i3, i4⟩ := ih ({ b with lines := r.1, history := { states := b.history.states ++ [r.1], cursors := b.history.cursors ++ [r.2], index := b.history.index + 1 } } : Buffer) (by simp; omega)
    have hrw : recordAll b (r :: rs) = recordAll (({ b with lines := r.1 } : Buffer).update_history r.2) rs := rfl
    refine ⟨?_, ?_, ?_, ?_⟩
    · rw [hrw, hstep, i1]
      simp [List.append_assoc]
    · rw [hrw, hstep, i2]
      simp [List.append_assoc]
    · rw [hrw, hstep, i3]
      simp
      omega
    · rw [hrw, hstep, i4, List.map_cons, List.getLastD_cons]

theorem undo_eq (b : Buffer) (k : Nat) (s : List (List Char)) (c : Position)
    (hk : b.history.index = k + 1)
    (hs : b.history.states[k]? = some s) (hc : b.history.cursors[k]? = some c) :
    b.undo = some ({ b with lines := s, history := { b.history with index := k } }, some c) := by
  have h0 : 0 < b.history.index := by omega
  simp [Buffer.undo, if_pos h0, History.rollback, hk, Nat.add_sub_cancel, hs, hc]

theorem redo_eq (b : Buffer) (s : List (List Char)) (c : Position)
    (hpast : b.history.index + 1 < b.history.states.length)
    (hs : b.history.states[b.history.index + 1]? = some s)
    (hc : b.history.cursors[b.history.index + 1]? = some c) :
    b.redo = some ({ b with lines := s, history := { b.history with index := b.history.index + 1 } }, some c) := by
  have hp : b.history.is_in_past = true := by
    simp only [History.is_in_past, decide_eq_true_eq]
    omega
  simp [Buffer.redo, hp, History.rollforward, hs, hc]


/-- Claim C3 (amended: at least one record call): for every buffer whose
history was produced by a nonempty sequence of record calls, undo followed
immediately by redo restores exactly the pre-undo row sequence, and redo
returns the cursor recorded with that state. -/
theorem undo_redo_round_trip (init : List (List Char)) (file : String)
    (r : (List (List Char)) × Position) (rs : List ((List (List Char)) × Position)) :
    ∃ b1 c1 b2,
      (recordAll (Buffer.new init file) (r :: rs)).undo = some (b1, some c1) ∧
      b1.redo = some (b2, some (((r :: rs).map Prod.snd).getLastD r.2)) ∧
      b2.lines = (recordAll (Buffer.new init file) (r :: rs)).lines := by
  obtain ⟨s1, s2, s3, s4⟩ := recordAll_tail (r :: rs) (Buffer.new init file) rfl
  set b := recordAll (Buffer.new init file) (r :: rs) with hb
  have hstates : b.history.states = init :: (r :: rs).map Prod.fst := by
    rw [s1]; rfl
  have hcursors : b.history.cursors = Position.new 0 0 :: (r :: rs).map Prod.snd := by
    rw [s2]; rfl
  have hidx : b.history.index = rs.length + 1 := by
    rw [s3]; simp [Buffer.new]
  have hlines : b.lines = ((r :: rs).map Prod.fst).getLastD init := by
    rw [s4]; rfl
  have hlen2 : rs.length < b.history.states.length := by
    rw [hstates]; simp only [List.length_cons, List.length_map]; omega
  have hlenc : rs.length < b.history.cursors.length := by
    rw [hcursors]; simp only [List.length_cons, List.length_map]; omega
  obtain ⟨s0, hs0⟩ : ∃ v, b.history.states[rs.length]? = some v :=
    ⟨_, List.getElem?_eq_getElem hlen2⟩
  obtain ⟨c0, hc0⟩ : ∃ v, b.history.cursors[rs.length]? = some v :=
    ⟨_, List.getElem?_eq_getElem hlenc⟩
  have hu := undo_eq b rs.length s0 c0 hidx hs0 hc0
  have hSlen : ((r :: rs).map Prod.fst).length = rs.length + 1 := by simp
  have hClen : ((r :: rs).map Prod.snd).length = rs.length + 1 := by simp
  have hpast1 : ({ b with lines := s0, history := { b.history with index := rs.length } } : Buffer).history.index + 1 < ({ b with lines := s0, history := { b.history with index := rs.length } } : Buffer).history.states.length := by
    show rs.length + 1 < b.history.states.length
    rw [hstates]; simp
  have hs1 : ({ b with lines := s0, history := { b.history with index := rs.length } } : Buffer).history.states[rs.length + 1]? = some (((r :: rs).map Prod.fst).getLastD init) := by
    show b.history.states[rs.length + 1]? = _
    rw [hstates, ← hSlen]
    exact cons_getElem?_length init _
  have hc1 : ({ b with lines := s0, history := { b.history with index := rs.length } } : Buffer).history.cursors[rs.length + 1]? = some (((r :: rs).map Prod.snd).getLastD (Position.new 0 0)) := by
    show b.history.cursors[rs.length + 1]? = _
    rw [hcursors, ← hClen]
    exact cons_getElem?_length (Position.new 0 0) _
  have hr := redo_eq ({ b with lines := s0, history := { b.history with index := rs.length } } : Buffer) _ _ hpast1 hs1 hc1
  have hcur : ((r :: rs).map Prod.snd).getLastD (Position.new 0 0) = ((r :: rs).map Prod.snd).getLastD r.2 := by
    rw [List.map_cons, List.getLastD_cons, List.getLastD_cons]
  rw [hcur] at hr
  refine ⟨_, c0, _, hu, hr, ?_⟩
  rw [hlines]

/-- Claim C3 counterexample: with an empty sequence of record calls, undo
is a no-op returning none and the immediately following redo also returns
none, not the cursor (0,0) recorded with the buffer's current state. -/
theorem undo_redo_without_record_returns_no_cursor :
    (recordAll (Buffer.new [['a']] "f") []).undo = some (Buffer.new [['a']] "f", none) ∧
    (Buffer.new [['a']] "f").redo = some (Buffer.new [['a']] "f", none) ∧
    (Buffer.new [['a']] "f").history.cursors.getD 0 (Position.new 9 9) = Position.new 0 0 := by
  decide


theorem write_preserves (b : Buffer) (pos : Position) (c : Char) (b' : Buffer)
    (h : b.write pos c = some b') :
    b'.lines ≠ [] ∧ b'.history = b.history := by
  unfold Buffer.write at h
  split_ifs at h with hy
  · cases hsp : splitAtChecked (b.lines.getD pos.y []) pos.x with
    | none => rw [hsp] at h; simp at h
    | some sp =>
      rw [hsp] at h
      simp at h
      subst h
      exact ⟨by simp, rfl⟩
  · simp at h
    subst h
    exact ⟨by simp, rfl⟩

theorem new_line_preserves (b : Buffer) (pos : Position) (hL : b.lines ≠ []) :
    (b.new_line pos).lines ≠ [] ∧ (b.new_line pos).history = b.history := by
  unfold Buffer.new_line
  split_ifs with h1
  · exact ⟨by simp, rfl⟩
  · refine ⟨?_, rfl⟩
    intro hc
    exact hL (List.append_eq_nil.mp hc).1

theorem enter_preserves (b : Buffer) (pos : Position) (hL : b.lines ≠ []) :
    (b.enter pos).lines ≠ [] ∧ (b.enter pos).history = b.history := by
  unfold Buffer.enter
  split_ifs with h1 h2
  · exact new_line_preserves b pos hL
  · exact ⟨by simp, rfl⟩
  · exact ⟨hL, rfl⟩

theorem backspace_preserves (b : Buffer) (pos : Position) (b' : Buffer) (r : Backspace)
    (h : b.backspace pos = some (b', r)) (hL : b.lines ≠ []) :
    b'.lines ≠ [] ∧ b'.history = b.history := by
  unfold Buffer.backspace at h
  split_ifs at h with h1 h2 h3 h4
  · cases hsp : splitAtChecked (b.lines.getD pos.y []) pos.x with
    | none => rw [hsp] at h; simp at h
    | some sp =>
      rw [hsp] at h
      simp only [Option.some_bind] at h
      cases hst : stripLastChar sp.1 with
      | none => rw [hst] at h; simp at h
      | some st =>
        rw [hst] at h
        simp at h
        obtain ⟨h5, h6⟩ := h
        subst h5
        exact ⟨by simp, rfl⟩
  · simp at h
    obtain ⟨h5, h6⟩ := h
    subst h5
    refine ⟨?_, rfl⟩
    apply List.ne_nil_of_length_pos
    simp only [List.length_append, List.length_take, List.length_drop]
    omega
  · simp at h
    obtain ⟨h5, h6⟩ := h
    subst h5
    exact ⟨by simp, rfl⟩
  · simp at h
    obtain ⟨h5, h6⟩ := h
    subst h5
    exact ⟨hL, rfl⟩
  · simp at h
    obtain ⟨h5, h6⟩ := h
    subst h5
    exact ⟨hL, rfl⟩

theorem update_history_preserves (b : Buffer) (cur : Position) (hL : b.lines ≠ [])
    (hS : ∀ s ∈ b.history.states, s ≠ []) :
    (b.update_history cur).lines = b.lines ∧
    ∀ s ∈ (b.update_history cur).history.states, s ≠ [] := by
  refine ⟨rfl, ?_⟩
  intro s hs
  by_cases hp : b.history.is_in_past
  · simp [Buffer.update_history, hp, History.update, History.decapitate] at hs
    rcases hs with h | h
    · exact hS s (List.mem_of_mem_take h)
    · exact h ▸ hL
  · simp [Buffer.update_history, hp, History.update] at hs
    rcases hs with h | h
    · exact hS s h
    · exact h ▸ hL

theorem undo_preserves (b : Buffer) (b' : Buffer) (rr : Option Position)
    (h : b.undo = some (b', rr)) (hL : b.lines ≠ [])
    (hS : ∀ s ∈ b.history.states, s ≠ []) :
    b'.lines ≠ [] ∧ b'.history.states = b.history.states := by
  simp only [Buffer.undo, History.rollback] at h
  split_ifs at h with h0
  · cases hsv : b.history.states[b.history.index - 1]? with
    | none => rw [hsv] at h; simp at h
    | some s =>
      rw [hsv] at h
      cases hcv : b.history.cursors[b.history.index - 1]? with
      | none => rw [hcv] at h; simp at h
      | some c =>
        rw [hcv] at h
        simp at h
        obtain ⟨h5, h6⟩ := h
        subst h5
        exact ⟨hS s (List.getElem?_mem hsv), rfl⟩
  · simp at h
    obtain ⟨h5, h6⟩ := h
    subst h5
    exact ⟨hL, rfl⟩

theorem redo_preserves (b : Buffer) (b' : Buffer) (rr : Option Position)
    (h : b.redo = some (b', rr)) (hL : b.lines ≠ [])
    (hS : ∀ s ∈ b.history.states, s ≠ []) :
    b'.lines ≠ [] ∧ b'.history.states = b.history.states := by
  simp only [Buffer.redo, History.rollforward] at h
  split_ifs at h with h0
  · cases hsv : b.history.states[b.history.index + 1]? with
    | none => rw [hsv] at h; simp at h
    | some s =>
      rw [hsv] at h
      cases hcv : b.history.cursors[b.history.index + 1]? with
      | none => rw [hcv] at h; simp at h
      | some c =>
        rw [hcv] at h
        simp at h
        obtain ⟨h5, h6⟩ := h
        subst h5
        exact ⟨hS s (List.getElem?_mem hsv), rfl⟩
  · simp at h
    obtain ⟨h5, h6⟩ := h
    subst h5
    exact ⟨hL, rfl⟩

/-- Claim C8: every buffer reachable from construction with at least one
line through the public operations has a non-empty line sequence, and
every snapshot stored in history.states is a non-empty sequence of rows. -/
theorem buffer_nonempty_invariant :
    ∀ b : Buffer, Reachable b → b.lines ≠ [] ∧ ∀ s ∈ b.history.states, s ≠ [] := by
  intro b h
  induction h with
  | new lines file hne =>
    refine ⟨hne, ?_⟩
    intro s hs
    simp only [Buffer.new, List.mem_singleton] at hs
    exact hs ▸ hne
  | write b pos c b' hrb hw ih =>
    obtain ⟨hL, hS⟩ := ih
    obtain ⟨h1, h2⟩ := write_preserves b pos c b' hw
    exact ⟨h1, by rw [h2]; exact hS⟩
  | backspace b pos b' r hrb hbs ih =>
    obtain ⟨hL, hS⟩ := ih
    obtain ⟨h1, h2⟩ := backspace_preserves b pos b' r hbs hL
    exact ⟨h1, by rw [h2]; exact hS⟩
  | enter b pos hrb ih =>
    obtain ⟨hL, hS⟩ := ih
    obtain ⟨h1, h2⟩ := enter_preserves b pos hL
    exact ⟨h1, by rw [h2]; exact hS⟩
  | new_line b pos hrb ih =>
    obtain ⟨hL, hS⟩ := ih
    obtain ⟨h1, h2⟩ := new_line_preserves b pos hL
    exact ⟨h1, by rw [h2]; exact hS⟩
  | update_history b cur hrb ih =>
    obtain ⟨hL, hS⟩ := ih
    obtain ⟨h1, h2⟩ := update_history_preserves b cur hL hS
    exact ⟨by rw [h1]; exact hL, h2⟩
  | undo b b' rr hrb hu ih =>
    obtain ⟨hL, hS⟩ := ih
    obtain ⟨h1, h2⟩ := undo_preserves b b' rr hu hL hS
    exact ⟨h1, by rw [h2]; exact hS⟩
  | redo b b' rr hrb hu ih =>
    obtain ⟨hL, hS⟩ := ih
    obtain ⟨h1, h2⟩ := redo_preserves b b' rr hu hL hS
    exact ⟨h1, by rw [h2]; exact hS⟩

/-- Claim C8 witness: the invariant at a freshly constructed buffer. -/
theorem buffer_nonempty_invariant_witness :
    (Buffer.new [['a']] "f").lines ≠ [] ∧
    ∀ s ∈ (Buffer.new [['a']] "f").history.states, s ≠ [] :=
  buffer_nonempty_invariant (Buffer.new [['a']] "f") (Reachable.new [['a']] "f" (by decide))


end Beditor
